import Mathlib

/-!
Verification of the VeGETA front-end (`vegeta.py`) and of the clustering
core it drives.

Part 1 embeds `src/vegeta.py`: the docopt argument dictionary, the
filesystem-facing environment, `create_outdir`, `parse_arguments` and the
`__main__` block, with observable side effects (logging, `os.mkdir`,
pipeline-stage invocations) recorded as an explicit trace.

Part 2 models the clustering core (module `ClusterViruses`, not present in
the repository snapshot): k-mer profiling, the pairwise distance matrix,
the Markov-clustering loop with its iteration cap, connected-component
cluster extraction and centroid selection, each modelled from the spec.
-/

namespace Vegeta

/-- The docopt argument dictionary of `vegeta.py`: one field per CLI key. -/
structure PyArgs where
  version : Bool
  verbose : Bool
  inputSequences : String
  genomeOfInterest : Option String
  output : String
  kmer : String
  alignmentOnly : Bool
  clusterOnly : Bool
deriving DecidableEq

/-- The parts of the process environment `vegeta.py` consults:
`os.path.isfile`, directory existence (for `os.mkdir`) and `os.getcwd()`. -/
structure Env where
  isFile : String → Bool
  dirExists : String → Bool
  cwd : String

/-- Observable side effects of `vegeta.py`: log records, `print`,
`os.mkdir`, and each method call on the `Clusterer` pipeline object. -/
inductive Effect where
  | printVersion
  | setLevelInfo
  | logInfo (msg : String)
  | logWarning (msg : String)
  | logError (msg : String)
  | mkdir (path : String)
  | clustererInit (inputSequences : String) (k : Int)
  | determineProfile
  | pairwiseDistances
  | createMatrix
  | performMCL (outdir : String)
  | extractCluster (outdir : String)
deriving DecidableEq

/-- True exactly for the effects that invoke a stage of the clustering
pipeline (any method of the `Clusterer` object). -/
def Effect.isPipelineStage : Effect → Bool
  | Effect.clustererInit _ _ => true
  | Effect.determineProfile => true
  | Effect.pairwiseDistances => true
  | Effect.createMatrix => true
  | Effect.performMCL _ => true
  | Effect.extractCluster _ => true
  | _ => false

/-- True exactly for the effects that create an on-disk artifact. -/
def Effect.isArtifact : Effect → Bool
  | Effect.mkdir _ => true
  | _ => false

/-- True when the effect is a `Clusterer` construction whose input-sequence
path equals `s`. -/
def Effect.initUses (s : String) : Effect → Bool
  | Effect.clustererInit i _ => i == s
  | _ => false

/-- One decimal digit of Python's `int()`, or `none`. -/
def digitVal (c : Char) : Option Nat :=
  if c.isDigit = true then some (c.toNat - 48) else none

/-- Value of a digit string, `none` if any character is not a digit.
The empty list yields `some 0`; callers reject it separately. -/
def digitsVal (l : List Char) : Option Nat :=
  l.foldl
    (fun acc c =>
      match acc, digitVal c with
      | some n, some v => some (10 * n + v)
      | _, _ => none)
    (some 0)

/-- Model of the part of Python's builtin `int(str)` exercised by
`parse_arguments`: an optional sign followed by one or more decimal
digits; anything else raises `ValueError` (here: `none`). -/
def pyIntCore : List Char → Option Int
  | [] => none
  | c :: rest =>
    if c = '-' then
      if rest = [] then none else (digitsVal rest).map (fun n => -(n : Int))
    else if c = '+' then
      if rest = [] then none else (digitsVal rest).map (fun n => (n : Int))
    else (digitsVal (c :: rest)).map (fun n => (n : Int))

/-- `int(d_args[--kmer])` as used in line 132 of `vegeta.py`. -/
def pyInt (s : String) : Option Int := pyIntCore s.toList

/-- Embeds `create_outdir` (lines 89-94 of `vegeta.py`): `os.mkdir` wrapped
in `try/except FileExistsError`, which logs a warning when the directory
already exists and an info record after creating it otherwise. -/
def create_outdir (env : Env) (outdir : String) : Env × List Effect :=
  if env.dirExists outdir = true then
    (env, [Effect.logWarning "The output directory exists. Files will be overwritten."])
  else
    ({ env with dirExists := fun q => (q == outdir) || env.dirExists q },
     [Effect.mkdir outdir,
      Effect.logInfo ("Creating output directory: " ++ outdir)])

/-- The Python truthiness-plus-isfile test of lines 121-124:
`if goi and not os.path.isfile(goi)`. -/
def goiMissing (env : Env) (d : PyArgs) : Bool :=
  match d.genomeOfInterest with
  | some g => (!(g == "")) && (!(env.isFile g))
  | none => false

/-- The parsed-and-checked parameter tuple returned by `parse_arguments`. -/
structure Parsed where
  inputSequences : String
  goi : Option String
  outdir : String
  alnOnly : Bool
  clusterOnly : Bool
  k : Int
deriving DecidableEq

/-- Embeds `parse_arguments` (lines 96-141 of `vegeta.py`), in source
order: `--version` exits 0; a missing input-sequence file exits 1; a
provided-but-missing genome of interest exits 1; the output directory
`<output>/vegeta` is created (with `pwd` resolved to `os.getcwd()`);
a non-numeric `--kmer` exits 2; otherwise the checked tuple is returned.
The result is the updated environment, the effect trace, and either an
exit code or the tuple. -/
def parse_arguments (env : Env) (d : PyArgs) : Env × List Effect × Except Nat Parsed :=
  if d.version = true then
    (env, [Effect.printVersion], Except.error 0)
  else
    let tr0 : List Effect := if d.verbose = true then [Effect.setLevelInfo] else []
    if env.isFile d.inputSequences = false then
      (env, tr0 ++ [Effect.logError "Couldnt find input sequences. Check your file"],
       Except.error 1)
    else if goiMissing env d = true then
      (env, tr0 ++ [Effect.logError "Couldnt find genome of interest. Check your file"],
       Except.error 1)
    else
      let output := if d.output == "pwd" then env.cwd else d.output
      let eo := create_outdir env (output ++ "/vegeta")
      match pyInt d.kmer with
      | none =>
        (eo.1, tr0 ++ eo.2 ++
          [Effect.logError "Invalid parameter for k-mer size. Please input a number."],
         Except.error 2)
      | some k =>
        (eo.1, tr0 ++ eo.2,
         Except.ok
           { inputSequences := d.inputSequences
             goi := d.genomeOfInterest
             outdir := output ++ "/vegeta"
             alnOnly := d.alignmentOnly
             clusterOnly := d.clusterOnly
             k := k })

/-- Embeds the `__main__` block (lines 143-162 of `vegeta.py`): parse the
arguments (an exit there ends the process with that code), then, unless
`--alignment-only` was given, run the `Clusterer` stages in source order:
construction with `(inputSequences, k)`, `determine_profile`,
`pairwise_distances`, `create_matrix`, `perform_mcl(outdir)` and
`extract_cluster(outdir)`. The result is the final environment, the full
effect trace, and the exit code if the process exited early. -/
def main_run (env : Env) (d : PyArgs) : Env × List Effect × Option Nat :=
  match parse_arguments env d with
  | (env', tr, Except.error c) => (env', tr, some c)
  | (env', tr, Except.ok p) =>
    let tr1 := tr ++
      (if p.alnOnly = true then
        [Effect.logInfo "Skipping clustering and directly calculate the alignment."]
       else [])
    let tr2 := tr1 ++
      (if p.clusterOnly = true then
        [Effect.logInfo "Only clustering is performed. The alignment calculation will be skipped."]
       else [])
    let tr3 := tr2 ++
      (if p.alnOnly = false then
        [Effect.clustererInit p.inputSequences p.k,
         Effect.determineProfile,
         Effect.logInfo "Calculating all pairwise kmer distances. This may take a while.",
         Effect.pairwiseDistances,
         Effect.createMatrix,
         Effect.logInfo "Now performing mcl to cluster the sequences.",
         Effect.performMCL p.outdir,
         Effect.extractCluster p.outdir]
       else [])
    (env', tr3, none)

section Clustering

variable {α : Type} [DecidableEq α]

/-- Modelled from the spec: the K-mer Profiler of the missing
`ClusterViruses` module. The profile is built by sliding a window of
length `k` across the sequence with stride 1; this lists the window
contents in order. -/
def kmers (k : Nat) (s : List Char) : List (List Char) :=
  (List.range (s.length + 1 - k)).map (fun i => (s.drop i).take k)

/-- Modelled from the spec: the occurrence count of the k-mer `m` in the
profile of sequence `s` (missing `ClusterViruses` module). -/
def kmerCount (k : Nat) (s : List Char) (m : List Char) : Nat :=
  (kmers k s).count m

/-- Modelled from the spec: the shared key domain of all profiles — the
universe of k-mers observed across the whole sequence collection
(missing `ClusterViruses` module). -/
def kmerUniverse (k : Nat) (seqs : List (List Char)) : List (List Char) :=
  ((seqs.map (kmers k)).flatten).dedup

/-- Modelled from the spec: sequence lookup in the Sequence Store, a
mapping from identifier to raw symbol sequence (missing `ClusterViruses`
module). An unknown identifier yields the empty sequence. -/
def seqOf (store : List (String × List Char)) (i : String) : List Char :=
  match store.find? (fun p => p.1 == i) with
  | some p => p.2
  | none => []

/-- Modelled from the spec: the Distance Engine of the missing
`ClusterViruses` module. The dissimilarity of two sequences is the
count-vector (Manhattan) distance of their k-mer profiles over the shared
k-mer universe, a standard k-mer-profile distance; it is symmetric by
construction, not by computation order. -/
def distance (k : Nat) (store : List (String × List Char)) (a b : String) : ℚ :=
  ((kmerUniverse k (store.map (fun p => p.2))).map
    (fun m => |(kmerCount k (seqOf store a) m : ℚ) - (kmerCount k (seqOf store b) m : ℚ)|)).sum

/-- Minimum of a list under the key `key`, `none` only for the empty
list. Used to pick centroids deterministically. -/
def chooseMin {β : Type} [LinearOrder β] (key : α → β) : List α → Option α
  | [] => none
  | x :: xs =>
    match chooseMin key xs with
    | none => some x
    | some m => if key x ≤ key m then some x else some m

/-- Modelled from the spec: the summed intra-cluster distance of member
`s` — the sum of its Distance Matrix entries to all other members of the
cluster `c` (missing `ClusterViruses` module, Cluster Extractor). -/
def sumDist (d : α → α → ℚ) (c : List α) (s : α) : ℚ :=
  ((c.filter (fun y => decide (y ≠ s))).map (fun y => d s y)).sum

/-- Modelled from the spec: the selection key for centroids — summed
intra-cluster distance first, identifier second, compared
lexicographically so that ties are broken by lowest identifier. -/
def centroidKey [LinearOrder α] (d : α → α → ℚ) (c : List α) (s : α) : ℚ ×ₗ α :=
  toLex (sumDist d c s, s)

/-- Modelled from the spec: the centroid of a cluster — the member
minimizing summed intra-cluster distance, ties broken by lowest
identifier (missing `ClusterViruses` module, Cluster Extractor). -/
def centroid [LinearOrder α] (d : α → α → ℚ) (c : List α) : Option α :=
  chooseMin (centroidKey d c) c

/-- Modelled from the spec: `extract_cluster` of the missing
`ClusterViruses` module — record, for each cluster, the cluster together
with its centroid identifier. -/
def extract_cluster [LinearOrder α] (d : α → α → ℚ) (clusters : List (List α)) :
    List (List α × Option α) :=
  clusters.map (fun c => (c, centroid d c))

/-- Symmetrized adjacency: the clusterer treats the final matrix as an
undirected graph. -/
def adjSym (adj : α → α → Bool) (x y : α) : Bool := adj x y || adj y x

/-- True when `x` is adjacent to some member of the component `c`. -/
def linked (adj : α → α → Bool) (x : α) (c : List α) : Bool :=
  c.any (fun y => adjSym adj x y)

/-- Modelled from the spec: one step of incremental connected-component
construction — the new node `x` is merged with every existing component
it is adjacent to (missing `ClusterViruses` module, graph clustering). -/
def addNode (adj : α → α → Bool) (comps : List (List α)) (x : α) : List (List α) :=
  (x :: (comps.filter (fun c => linked adj x c)).flatten) ::
    comps.filter (fun c => !(linked adj x c))

/-- Modelled from the spec: the connected components of the graph on
`nodes` induced by `adj`, interpreted as the output clusters (missing
`ClusterViruses` module, graph clustering). -/
def components (adj : α → α → Bool) (nodes : List α) : List (List α) :=
  nodes.foldl (addNode adj) []

/-- Modelled from the spec: the column sum used to normalize outgoing
edge weights into transition probabilities (missing `ClusterViruses`
module, Markov clustering). -/
def colSum (nodes : List α) (M : α → α → ℚ) (j : α) : ℚ :=
  (nodes.map (fun i => M i j)).sum

/-- Modelled from the spec: column normalization of the transition
matrix; an all-zero column is left unchanged (missing `ClusterViruses`
module, Markov clustering). -/
def normalize (nodes : List α) (M : α → α → ℚ) : α → α → ℚ :=
  fun i j => if colSum nodes M j = 0 then M i j else M i j / colSum nodes M j

/-- Modelled from the spec: entrywise inflation to the power `r`,
sharpening strong paths and suppressing weak ones (missing
`ClusterViruses` module, Markov clustering). -/
def inflate (r : Nat) (M : α → α → ℚ) : α → α → ℚ :=
  fun i j => (M i j) ^ r

/-- Modelled from the spec: one normalize-then-inflate iteration of the
Markov-clustering loop (missing `ClusterViruses` module). -/
def mclStep (nodes : List α) (r : Nat) (M : α → α → ℚ) : α → α → ℚ :=
  inflate r (normalize nodes M)

/-- Modelled from the spec: the convergence test — the matrix is stable
on all node pairs under one more step (missing `ClusterViruses`
module). -/
def mclConverged (nodes : List α) (r : Nat) (M : α → α → ℚ) : Bool :=
  nodes.all (fun i => nodes.all (fun j => decide (mclStep nodes r M i j = M i j)))

/-- Modelled from the spec: the capped normalize/inflate loop of the
Markov clusterer. Returns the final matrix, the number of iterations
performed, and whether the matrix had converged (missing
`ClusterViruses` module). The iteration cap is the `Nat` fuel, so the
loop terminates on every input. -/
def mclLoop (nodes : List α) (r : Nat) : Nat → (α → α → ℚ) → (α → α → ℚ) × Nat × Bool
  | 0, M => (M, 0, mclConverged nodes r M)
  | n + 1, M =>
    if mclConverged nodes r M = true then (M, 0, true)
    else
      ((mclLoop nodes r n (mclStep nodes r M)).1,
       (mclLoop nodes r n (mclStep nodes r M)).2.1 + 1,
       (mclLoop nodes r n (mclStep nodes r M)).2.2)

/-- Modelled from the spec: the initial transition matrix derived from
the similarity weights, with self-loops added on the diagonal (missing
`ClusterViruses` module). -/
def initMatrix (w : α → α → ℚ) : α → α → ℚ :=
  fun i j => if i = j then 1 else w i j

/-- Support of the final matrix, read as a graph adjacency. -/
def matrixAdj (M : α → α → ℚ) : α → α → Bool :=
  fun i j => decide (M i j ≠ 0)

/-- The warning emitted when the iteration cap is reached without
convergence. -/
def mclWarning : String :=
  "Markov clustering reached the iteration cap without convergence. Returning the current partition."

/-- Modelled from the spec: `perform_mcl` of the missing
`ClusterViruses` module — run the capped Markov-clustering loop on the
similarity weights and interpret the connected components of the final
matrix as clusters; cap exhaustion yields the partition anyway, plus a
warning, never an error. -/
def perform_mcl (nodes : List α) (w : α → α → ℚ) (r cap : Nat) :
    List (List α) × List String :=
  (components (matrixAdj (mclLoop nodes r cap (initMatrix w)).1) nodes,
   if (mclLoop nodes r cap (initMatrix w)).2.2 = true then [] else [mclWarning])

/-- Single-step adjacency within the node set `nodes`. -/
def stepIn (adj : α → α → Bool) (nodes : List α) (x y : α) : Prop :=
  x ∈ nodes ∧ y ∈ nodes ∧ adjSym adj x y = true

/-- Connectivity through a path staying inside `nodes`. -/
def connectedIn (adj : α → α → Bool) (nodes : List α) (x y : α) : Prop :=
  Relation.ReflTransGen (stepIn adj nodes) x y

/-- The invariant maintained by the incremental component construction:
the components cover exactly the processed nodes, each component is
closed under adjacency to processed nodes, and any two members of a
component are connected through processed nodes. -/
def CompInv (adj : α → α → Bool) (S : List α) (comps : List (List α)) : Prop :=
  comps.flatten.Perm S ∧
  (∀ c ∈ comps, ∀ x ∈ c, ∀ y ∈ S, adjSym adj x y = true → y ∈ c) ∧
  (∀ c ∈ comps, ∀ x ∈ c, ∀ y ∈ c, connectedIn adj S x y)

lemma chooseMin_eq_none_iff {β : Type} [LinearOrder β] (key : α → β) (l : List α) :
    chooseMin key l = none ↔ l = [] := by
  cases l with
  | nil => simp [chooseMin]
  | cons x xs =>
    simp only [chooseMin]
    cases h : chooseMin key xs with
    | none => simp
    | some m => simp only []; split <;> simp

lemma chooseMin_mem {β : Type} [LinearOrder β] {key : α → β} {l : List α} {m : α}
    (h : chooseMin key l = some m) : m ∈ l := by
  induction l with
  | nil => simp [chooseMin] at h
  | cons x xs ih =>
    simp only [chooseMin] at h
    cases hx : chooseMin key xs with
    | none =>
      rw [hx] at h
      simp only [Option.some.injEq] at h
      subst h
      exact List.mem_cons_self x xs
    | some m' =>
      rw [hx] at h
      dsimp only at h
      by_cases hle : key x ≤ key m'
      · rw [if_pos hle] at h
        simp only [Option.some.injEq] at h
        subst h
        exact List.mem_cons_self x xs
      · rw [if_neg hle] at h
        simp only [Option.some.injEq] at h
        subst h
        exact List.mem_cons_of_mem x (ih hx)

lemma chooseMin_le {β : Type} [LinearOrder β] {key : α → β} {l : List α} {m : α}
    (h : chooseMin key l = some m) : ∀ y ∈ l, key m ≤ key y := by
  induction l generalizing m with
  | nil => simp [chooseMin] at h
  | cons x xs ih =>
    simp only [chooseMin] at h
    cases hx : chooseMin key xs with
    | none =>
      rw [hx] at h
      simp only [Option.some.injEq] at h
      subst h
      have hxs : xs = [] := (chooseMin_eq_none_iff key xs).1 hx
      subst hxs
      intro y hy
      simp only [List.mem_singleton] at hy
      subst hy
      exact le_refl _
    | some m' =>
      rw [hx] at h
      dsimp only at h
      by_cases hle : key x ≤ key m'
      · rw [if_pos hle] at h
        simp only [Option.some.injEq] at h
        subst h
        intro y hy
        rcases List.mem_cons.1 hy with rfl | hy'
        · exact le_refl _
        · exact le_trans hle (ih hx y hy')

      · rw [if_neg hle] at h
        simp only [Option.some.injEq] at h
        subst h
        intro y hy
        rcases List.mem_cons.1 hy with rfl | hy'
        · exact le_of_lt (lt_of_not_le hle)
        · exact ih hx y hy'

lemma chooseMin_eq_some {β : Type} [LinearOrder β] {key : α → β}
    (hinj : ∀ a b, key a = key b → a = b) {l : List α} {m : α}
    (hm : m ∈ l) (hle : ∀ y ∈ l, key m ≤ key y) : chooseMin key l = some m := by
  cases hc : chooseMin key l with
  | none =>
    rw [chooseMin_eq_none_iff] at hc
    subst hc
    simp at hm
  | some m0 =>
    have h1 : m0 ∈ l := chooseMin_mem hc
    have h2 : key m0 ≤ key m := chooseMin_le hc m hm
    have h3 : key m ≤ key m0 := hle m0 h1
    rw [hinj m0 m (le_antisymm h2 h3)]

lemma chooseMin_perm {β : Type} [LinearOrder β] {key : α → β}
    (hinj : ∀ a b, key a = key b → a = b) {l₁ l₂ : List α} (h : l₁.Perm l₂) :
    chooseMin key l₁ = chooseMin key l₂ := by
  cases hc : chooseMin key l₁ with
  | none =>
    rw [chooseMin_eq_none_iff] at hc
    subst hc
    rw [List.Perm.eq_nil h.symm]
    rfl
  | some m =>
    exact (chooseMin_eq_some hinj (h.subset (chooseMin_mem hc))
      (fun y hy => chooseMin_le hc y (h.symm.subset hy))).symm

lemma centroidKey_inj [LinearOrder α] (d : α → α → ℚ) (c : List α) :
    ∀ a b, centroidKey d c a = centroidKey d c b → a = b := by
  intro a b h
  have h2 := congrArg (fun p : ℚ ×ₗ α => (ofLex p).2) h
  simpa [centroidKey] using h2

lemma sumDist_perm (d : α → α → ℚ) {c₁ c₂ : List α} (h : c₁.Perm c₂) (s : α) :
    sumDist d c₁ s = sumDist d c₂ s :=
  List.Perm.sum_eq ((h.filter _).map _)

lemma centroid_perm [LinearOrder α] (d : α → α → ℚ) {c₁ c₂ : List α} (h : c₁.Perm c₂) :
    centroid d c₁ = centroid d c₂ := by
  unfold centroid
  have hkey : centroidKey d c₁ = centroidKey d c₂ := by
    funext s
    unfold centroidKey
    rw [sumDist_perm d h]
  rw [hkey]
  exact chooseMin_perm (centroidKey_inj d c₂) h

lemma centroid_mem_and_min [LinearOrder α] (d : α → α → ℚ) {c : List α} (hne : c ≠ []) :
    ∃ m, centroid d c = some m ∧ m ∈ c ∧
      (∀ x ∈ c, sumDist d c m ≤ sumDist d c x) ∧
      (∀ x ∈ c, sumDist d c x = sumDist d c m → m ≤ x) := by
  cases hc : centroid d c with
  | none =>
    unfold centroid at hc
    rw [chooseMin_eq_none_iff] at hc
    exact absurd hc hne
  | some m =>
    refine ⟨m, rfl, chooseMin_mem hc, ?_, ?_⟩
    · intro x hx
      have h := chooseMin_le hc x hx
      unfold centroidKey at h
      rcases (Prod.Lex.le_iff _ _).1 h with hlt | ⟨heq, _⟩
      · exact le_of_lt hlt
      · exact le_of_eq heq
    · intro x hx heq
      have h := chooseMin_le hc x hx
      unfold centroidKey at h
      rcases (Prod.Lex.le_iff _ _).1 h with hlt | ⟨_, hle⟩
      · exact absurd heq.symm (ne_of_lt hlt)
      · exact hle

lemma centroid_singleton [LinearOrder α] (d : α → α → ℚ) (s : α) :
    centroid d [s] = some s := by
  simp [centroid, chooseMin]

lemma addNode_flatten_perm (adj : α → α → Bool) (comps : List (List α)) (x : α) :
    (addNode adj comps x).flatten.Perm (x :: comps.flatten) := by
  simp only [addNode, List.flatten_cons, List.cons_append]
  refine List.Perm.cons x ?_
  rw [← List.flatten_append]
  exact (List.filter_append_perm _ comps).flatten

lemma foldl_addNode_flatten_perm (adj : α → α → Bool) (ns : List α) :
    ∀ comps : List (List α),
      ((ns.foldl (addNode adj) comps).flatten).Perm (ns ++ comps.flatten) := by
  induction ns with
  | nil => intro comps; simp
  | cons z ns ih =>
    intro comps
    simp only [List.foldl_cons, List.cons_append]
    refine (ih (addNode adj comps z)).trans ?_
    refine (List.Perm.append_left ns (addNode_flatten_perm adj comps z)).trans ?_
    exact List.perm_middle

lemma components_flatten_perm (adj : α → α → Bool) (nodes : List α) :
    ((components adj nodes).flatten).Perm nodes := by
  have h := foldl_addNode_flatten_perm adj nodes []
  simpa [components] using h

lemma addNode_ne_nil (adj : α → α → Bool) {comps : List (List α)}
    (h : ∀ c ∈ comps, c ≠ []) (x : α) :
    ∀ c ∈ addNode adj comps x, c ≠ [] := by
  intro c hc
  simp only [addNode] at hc
  rcases List.mem_cons.1 hc with rfl | hc'
  · simp
  · exact h c (List.mem_of_mem_filter hc')

lemma components_ne_nil (adj : α → α → Bool) (nodes : List α) :
    ∀ c ∈ components adj nodes, c ≠ [] := by
  suffices h : ∀ (ns : List α) (comps : List (List α)), (∀ c ∈ comps, c ≠ []) →
      ∀ c ∈ List.foldl (addNode adj) comps ns, c ≠ [] by
    exact h nodes [] (by simp)
  intro ns
  induction ns with
  | nil => intro comps h; simpa using h
  | cons z ns ih =>
    intro comps h
    simp only [List.foldl_cons]
    exact ih _ (addNode_ne_nil adj h z)

lemma components_flatten_nodup (adj : α → α → Bool) {nodes : List α} (h : nodes.Nodup) :
    ((components adj nodes).flatten).Nodup :=
  ((components_flatten_perm adj nodes).nodup_iff).2 h

lemma components_disjoint (adj : α → α → Bool) {nodes : List α} (h : nodes.Nodup) :
    List.Pairwise List.Disjoint (components adj nodes) :=
  (List.nodup_flatten.1 (components_flatten_nodup adj h)).2

lemma components_each_nodup (adj : α → α → Bool) {nodes : List α} (h : nodes.Nodup) :
    ∀ c ∈ components adj nodes, c.Nodup :=
  (List.nodup_flatten.1 (components_flatten_nodup adj h)).1

lemma linked_singleton (adj : α → α → Bool) (z x : α) :
    linked adj z [x] = adjSym adj z x := by
  simp [linked]

lemma foldl_keeps_isolated (adj : α → α → Bool) {x : α} :
    ∀ (ns : List α) (comps : List (List α)),
      (∀ z ∈ ns, adjSym adj z x = false) → [x] ∈ comps →
      [x] ∈ ns.foldl (addNode adj) comps := by
  intro ns
  induction ns with
  | nil => intro comps _ hx; simpa using hx
  | cons z ns ih =>
    intro comps h hx
    simp only [List.foldl_cons]
    refine ih _ (fun u hu => h u (List.mem_cons_of_mem z hu)) ?_
    simp only [addNode]
    refine List.mem_cons_of_mem _ ?_
    refine List.mem_filter.2 ⟨hx, ?_⟩
    rw [linked_singleton, h z (List.mem_cons_self z ns)]
    rfl

lemma addNode_not_linked (adj : α → α → Bool) {comps : List (List α)} {x : α}
    (h : ∀ c ∈ comps, linked adj x c = false) : addNode adj comps x = [x] :: comps := by
  simp only [addNode]
  have h1 : comps.filter (fun c => linked adj x c) = [] :=
    List.filter_eq_nil_iff.2 (by intro c hc; simp [h c hc])
  have h2 : comps.filter (fun c => !(linked adj x c)) = comps :=
    List.filter_eq_self.2 (by intro c hc; simp [h c hc])
  rw [h1, h2]
  simp

lemma isolated_mem_components (adj : α → α → Bool) {nodes : List α} {x : α}
    (hnd : nodes.Nodup) (hx : x ∈ nodes)
    (hiso : ∀ y ∈ nodes, y ≠ x → adjSym adj x y = false ∧ adjSym adj y x = false) :
    [x] ∈ components adj nodes := by
  obtain ⟨l₁, l₂, rfl⟩ := List.append_of_mem hx
  have hnd' := hnd
  rw [List.nodup_append] at hnd'
  obtain ⟨h1, h2, hdisj⟩ := hnd'
  have hxl₁ : x ∉ l₁ := fun hmem => hdisj hmem (List.mem_cons_self x l₂)
  have hxl₂ : x ∉ l₂ := (List.nodup_cons.1 h2).1
  unfold components
  rw [List.foldl_append]
  simp only [List.foldl_cons]
  have hmem₁ : ∀ y ∈ (l₁.foldl (addNode adj) []).flatten, y ∈ l₁ := by
    intro y hy
    have hperm := foldl_addNode_flatten_perm adj l₁ []
    simp only [List.flatten_nil, List.append_nil] at hperm
    exact hperm.subset hy
  have hnl : ∀ c ∈ l₁.foldl (addNode adj) [], linked adj x c = false := by
    intro c hc
    rw [linked, List.any_eq_false]
    intro y hy
    have hyl₁ : y ∈ l₁ := hmem₁ y (List.mem_flatten.2 ⟨c, hc, hy⟩)
    have hyx : y ≠ x := fun he => hxl₁ (he ▸ hyl₁)
    have hz := (hiso y (by simp [hyl₁]) hyx).1
    simp [hz]
  rw [addNode_not_linked adj hnl]
  refine foldl_keeps_isolated adj l₂ _ ?_ (List.mem_cons_self _ _)
  intro z hz
  have hzx : z ≠ x := fun he => hxl₂ (he ▸ hz)
  exact (hiso z (by simp [hz]) hzx).2

lemma adjSym_comm (adj : α → α → Bool) (x y : α) : adjSym adj x y = adjSym adj y x := by
  simp [adjSym, Bool.or_comm]

lemma stepIn_symm (adj : α → α → Bool) (nodes : List α) : Symmetric (stepIn adj nodes) := by
  intro a b h
  obtain ⟨ha, hb, hadj⟩ := h
  exact ⟨hb, ha, by rw [adjSym_comm]; exact hadj⟩

lemma connectedIn_symm (adj : α → α → Bool) (nodes : List α) {x y : α}
    (h : connectedIn adj nodes x y) : connectedIn adj nodes y x :=
  Relation.ReflTransGen.symmetric (stepIn_symm adj nodes) h

lemma connectedIn_mono (adj : α → α → Bool) {S T : List α}
    (hsub : ∀ a, a ∈ S → a ∈ T) {x y : α}
    (h : connectedIn adj S x y) : connectedIn adj T x y :=
  Relation.ReflTransGen.mono (fun a b hab => ⟨hsub a hab.1, hsub b hab.2.1, hab.2.2⟩) h

lemma connectedIn_congr (adj : α → α → Bool) {S T : List α}
    (hiff : ∀ a, a ∈ S ↔ a ∈ T) (x y : α) :
    connectedIn adj S x y ↔ connectedIn adj T x y :=
  ⟨connectedIn_mono adj (fun a ha => (hiff a).1 ha),
   connectedIn_mono adj (fun a ha => (hiff a).2 ha)⟩

lemma CompInv_nil (adj : α → α → Bool) : CompInv adj [] [] :=
  ⟨by simp, by simp, by simp⟩

lemma CompInv_perm (adj : α → α → Bool) {S S' : List α} (hp : S.Perm S')
    {comps : List (List α)} (h : CompInv adj S comps) : CompInv adj S' comps := by
  obtain ⟨hcov, hcl, hcon⟩ := h
  refine ⟨hcov.trans hp, ?_, ?_⟩
  · intro c hc x hx y hy hadj
    exact hcl c hc x hx y (hp.symm.subset hy) hadj
  · intro c hc x hx y hy
    exact connectedIn_mono adj (fun a ha => hp.subset ha) (hcon c hc x hx y hy)

lemma CompInv_addNode (adj : α → α → Bool) {S : List α} {comps : List (List α)}
    (h : CompInv adj S comps) (z : α) : CompInv adj (z :: S) (addNode adj comps z) := by
  obtain ⟨hcov, hcl, hcon⟩ := h
  have hAsub : ∀ c ∈ comps.filter (fun c => linked adj z c), c ∈ comps :=
    fun c hc => List.mem_of_mem_filter hc
  have hBsub : ∀ c ∈ comps.filter (fun c => !(linked adj z c)), c ∈ comps :=
    fun c hc => List.mem_of_mem_filter hc
  have hz_conn : ∀ u ∈ z :: (comps.filter (fun c => linked adj z c)).flatten,
      connectedIn adj (z :: S) z u := by
    intro u hu
    rcases List.mem_cons.1 hu with rfl | hu'
    · exact Relation.ReflTransGen.refl
    · rcases List.mem_flatten.1 hu' with ⟨c, hcA, huc⟩
      have hlink : linked adj z c = true := (List.mem_filter.1 hcA).2
      rcases List.any_eq_true.1 hlink with ⟨v, hvc, hadj⟩
      have hvS : v ∈ S := hcov.subset (List.mem_flatten.2 ⟨c, hAsub c hcA, hvc⟩)
      have step1 : connectedIn adj (z :: S) z v :=
        Relation.ReflTransGen.single
          ⟨List.mem_cons_self z S, List.mem_cons_of_mem z hvS, hadj⟩
      have step2 : connectedIn adj S v u := hcon c (hAsub c hcA) v hvc u huc
      exact step1.trans (connectedIn_mono adj (fun a ha => List.mem_cons_of_mem z ha) step2)
  refine ⟨?_, ?_, ?_⟩
  · exact (addNode_flatten_perm adj comps z).trans (List.Perm.cons z hcov)
  · intro c hc x hx y hy hadj
    simp only [addNode] at hc
    rcases List.mem_cons.1 hc with rfl | hcB
    · rcases List.mem_cons.1 hy with rfl | hyS
      · exact List.mem_cons_self _ _
      · rcases List.mem_cons.1 hx with rfl | hxA
        · rcases List.mem_flatten.1 (hcov.symm.subset hyS) with ⟨c₀, hc₀, hyc₀⟩
          have hlink : linked adj x c₀ = true := List.any_eq_true.2 ⟨y, hyc₀, hadj⟩
          refine List.mem_cons_of_mem _ (List.mem_flatten.2 ⟨c₀, ?_, hyc₀⟩)
          exact List.mem_filter.2 ⟨hc₀, hlink⟩
        · rcases List.mem_flatten.1 hxA with ⟨c₀, hc₀A, hxc₀⟩
          have hyc₀ : y ∈ c₀ := hcl c₀ (hAsub c₀ hc₀A) x hxc₀ y hyS hadj
          exact List.mem_cons_of_mem _ (List.mem_flatten.2 ⟨c₀, hc₀A, hyc₀⟩)
    · have hcc : c ∈ comps := hBsub c hcB
      have hnl : linked adj z c = false := by
        have hb := (List.mem_filter.1 hcB).2
        simpa using hb
      rcases List.mem_cons.1 hy with rfl | hyS
      · exfalso
        have hl : linked adj y c = true :=
          List.any_eq_true.2 ⟨x, hx, by rw [adjSym_comm]; exact hadj⟩
        rw [hnl] at hl
        exact Bool.false_ne_true hl
      · exact hcl c hcc x hx y hyS hadj
  · intro c hc x hx y hy
    simp only [addNode] at hc
    rcases List.mem_cons.1 hc with rfl | hcB
    · exact (connectedIn_symm adj _ (hz_conn x hx)).trans (hz_conn y hy)
    · exact connectedIn_mono adj (fun a ha => List.mem_cons_of_mem z ha)
        (hcon c (hBsub c hcB) x hx y hy)

lemma CompInv_foldl (adj : α → α → Bool) (ns : List α) :
    ∀ {S : List α} {comps : List (List α)}, CompInv adj S comps →
      CompInv adj (ns ++ S) (ns.foldl (addNode adj) comps) := by
  induction ns with
  | nil => intro S comps h; simpa using h
  | cons z ns ih =>
    intro S comps h
    simp only [List.foldl_cons, List.cons_append]
    exact CompInv_perm adj List.perm_middle (ih (CompInv_addNode adj h z))

lemma components_CompInv (adj : α → α → Bool) (nodes : List α) :
    CompInv adj nodes (components adj nodes) := by
  have h := CompInv_foldl adj nodes (CompInv_nil adj)
  simpa [components] using h

lemma mem_components_iff (adj : α → α → Bool) {nodes : List α} {c : List α} {x : α}
    (hc : c ∈ components adj nodes) (hx : x ∈ c) (y : α) :
    y ∈ c ↔ (y ∈ nodes ∧ connectedIn adj nodes x y) := by
  obtain ⟨hcov, hcl, hcon⟩ := components_CompInv adj nodes
  constructor
  · intro hy
    exact ⟨hcov.subset (List.mem_flatten.2 ⟨c, hc, hy⟩), hcon c hc x hx y hy⟩
  · rintro ⟨hyn, hconn⟩
    clear hyn
    induction hconn with
    | refl => exact hx
    | tail hab hstep ih => exact hcl c hc _ ih _ hstep.2.1 hstep.2.2

lemma exists_component (adj : α → α → Bool) {nodes : List α} {x : α} (hx : x ∈ nodes) :
    ∃ c, c ∈ components adj nodes ∧ x ∈ c := by
  have hcov := (components_CompInv adj nodes).1
  rcases List.mem_flatten.1 (hcov.symm.subset hx) with ⟨c, hc, hxc⟩
  exact ⟨c, hc, hxc⟩

lemma components_match (adj : α → α → Bool) {ns₁ ns₂ : List α} (hperm : ns₁.Perm ns₂)
    {c₁ : List α} (hc₁ : c₁ ∈ components adj ns₁) :
    ∃ c₂, c₂ ∈ components adj ns₂ ∧ ∀ y, (y ∈ c₁ ↔ y ∈ c₂) := by
  have hne := components_ne_nil adj ns₁ c₁ hc₁
  obtain ⟨x, hx⟩ := List.exists_mem_of_ne_nil c₁ hne
  have hxn₁ : x ∈ ns₁ := ((mem_components_iff adj hc₁ hx x).1 hx).1
  obtain ⟨c₂, hc₂, hxc₂⟩ := exists_component adj (hperm.subset hxn₁)
  refine ⟨c₂, hc₂, fun y => ?_⟩
  have hmm : ∀ a : α, a ∈ ns₁ ↔ a ∈ ns₂ := fun a => hperm.mem_iff
  rw [mem_components_iff adj hc₁ hx y, mem_components_iff adj hc₂ hxc₂ y,
    connectedIn_congr adj hmm x y, hmm y]

lemma mclLoop_count_le (nodes : List α) (r : Nat) :
    ∀ (fuel : Nat) (M : α → α → ℚ), (mclLoop nodes r fuel M).2.1 ≤ fuel := by
  intro fuel
  induction fuel with
  | zero => intro M; simp [mclLoop]
  | succ n ih =>
    intro M
    rw [mclLoop]
    by_cases h : mclConverged nodes r M = true
    · simp [h]
    · rw [if_neg h]
      exact Nat.succ_le_succ (ih _)

lemma mclStep_zero (nodes : List α) {r : Nat} (hr : 0 < r) {M : α → α → ℚ} {x y : α}
    (h : M x y = 0) : mclStep nodes r M x y = 0 := by
  unfold mclStep inflate normalize
  by_cases hc : colSum nodes M y = 0
  · simp [hc, h, zero_pow (Nat.pos_iff_ne_zero.1 hr)]
  · simp [hc, h, zero_pow (Nat.pos_iff_ne_zero.1 hr)]

lemma mclLoop_zero_entries (nodes : List α) {r : Nat} (hr : 0 < r) {x : α} :
    ∀ (fuel : Nat) (M : α → α → ℚ),
      (∀ y ∈ nodes, y ≠ x → M x y = 0 ∧ M y x = 0) →
      ∀ y ∈ nodes, y ≠ x →
        (mclLoop nodes r fuel M).1 x y = 0 ∧ (mclLoop nodes r fuel M).1 y x = 0 := by
  intro fuel
  induction fuel with
  | zero => intro M h; simpa [mclLoop] using h
  | succ n ih =>
    intro M h
    rw [mclLoop]
    by_cases hc : mclConverged nodes r M = true
    · simpa [hc] using h
    · rw [if_neg hc]
      exact ih _ (fun y hy hyx =>
        ⟨mclStep_zero nodes hr (h y hy hyx).1, mclStep_zero nodes hr (h y hy hyx).2⟩)

lemma list_all_perm {l₁ l₂ : List α} (h : l₁.Perm l₂) (p : α → Bool) :
    l₁.all p = l₂.all p := by
  by_cases hb : l₂.all p = true
  · rw [hb, List.all_eq_true]
    intro x hx
    exact List.all_eq_true.1 hb x (h.subset hx)
  · have hb1 : l₁.all p ≠ true := by
      intro h1
      exact hb (List.all_eq_true.2 (fun x hx => List.all_eq_true.1 h1 x (h.symm.subset hx)))
    rw [Bool.not_eq_true] at hb
    have hb2 : l₁.all p = false := by
      cases hq : l₁.all p
      · rfl
      · exact absurd hq hb1
    rw [hb, hb2]

lemma colSum_perm {ns₁ ns₂ : List α} (h : ns₁.Perm ns₂) (M : α → α → ℚ) (j : α) :
    colSum ns₁ M j = colSum ns₂ M j :=
  List.Perm.sum_eq (h.map _)

lemma normalize_perm {ns₁ ns₂ : List α} (h : ns₁.Perm ns₂) (M : α → α → ℚ) :
    normalize ns₁ M = normalize ns₂ M := by
  funext i j
  unfold normalize
  rw [colSum_perm h]

lemma mclStep_perm {ns₁ ns₂ : List α} (h : ns₁.Perm ns₂) (r : Nat) (M : α → α → ℚ) :
    mclStep ns₁ r M = mclStep ns₂ r M := by
  unfold mclStep
  rw [normalize_perm h]

lemma mclConverged_perm {ns₁ ns₂ : List α} (h : ns₁.Perm ns₂) (r : Nat) (M : α → α → ℚ) :
    mclConverged ns₁ r M = mclConverged ns₂ r M := by
  unfold mclConverged
  rw [mclStep_perm h]
  rw [list_all_perm h]
  congr 1
  funext i
  exact list_all_perm h _

lemma mclLoop_perm {ns₁ ns₂ : List α} (h : ns₁.Perm ns₂) (r : Nat) :
    ∀ (fuel : Nat) (M : α → α → ℚ), mclLoop ns₁ r fuel M = mclLoop ns₂ r fuel M := by
  intro fuel
  induction fuel with
  | zero => intro M; simp [mclLoop, mclConverged_perm h]
  | succ n ih =>
    intro M
    rw [mclLoop, mclLoop, mclConverged_perm h, mclStep_perm h, ih]

lemma sum_map_zero {γ : Type} (l : List γ) : (l.map (fun _ => (0 : ℚ))).sum = 0 := by
  induction l with
  | nil => simp
  | cons x xs ih => simp [ih]

/-- C3: the Distance Matrix satisfies distance(s,s) = 0, symmetry
distance(a,b) = distance(b,a) by construction (pointwise, independent of
any computation order), and non-negativity of every entry. -/
theorem C3_distance_matrix_props (k : Nat) (store : List (String × List Char)) :
    (∀ s, distance k store s s = 0) ∧
    (∀ a b, distance k store a b = distance k store b a) ∧
    (∀ a b, 0 ≤ distance k store a b) := by
  refine ⟨?_, ?_, ?_⟩
  · intro s
    unfold distance
    have h : ((kmerUniverse k (store.map (fun p => p.2))).map
        (fun m => |(kmerCount k (seqOf store s) m : ℚ) - (kmerCount k (seqOf store s) m : ℚ)|))
        = (kmerUniverse k (store.map (fun p => p.2))).map (fun _ => (0 : ℚ)) :=
      List.map_congr_left (fun m _ => by rw [sub_self, abs_zero])
    rw [h, sum_map_zero]
  · intro a b
    unfold distance
    congr 1
    exact List.map_congr_left (fun m _ => abs_sub_comm _ _)
  · intro a b
    unfold distance
    refine List.sum_nonneg ?_
    intro q hq
    rcases List.mem_map.1 hq with ⟨m, _, rfl⟩
    exact abs_nonneg _

/-- C5: the Markov-clustering loop performs at most `cap` iterations, and
whether or not it converged, `perform_mcl` returns a partition covering
the node set; cap exhaustion only adds a warning, never an error. -/
theorem C5_iteration_cap (nodes : List α) (w : α → α → ℚ) (r cap : Nat) :
    (mclLoop nodes r cap (initMatrix w)).2.1 ≤ cap ∧
    ((perform_mcl nodes w r cap).1).flatten.Perm nodes ∧
    ((perform_mcl nodes w r cap).2 = [] ∨ (perform_mcl nodes w r cap).2 = [mclWarning]) := by
  refine ⟨mclLoop_count_le nodes r cap _, ?_, ?_⟩
  · exact components_flatten_perm _ nodes
  · by_cases h : (mclLoop nodes r cap (initMatrix w)).2.2 = true
    · left
      show (if (mclLoop nodes r cap (initMatrix w)).2.2 = true then ([] : List String)
        else [mclWarning]) = []
      rw [if_pos h]
    · right
      show (if (mclLoop nodes r cap (initMatrix w)).2.2 = true then ([] : List String)
        else [mclWarning]) = [mclWarning]
      rw [if_neg h]

/-- C2: the clusters output by the Graph Clusterer are non-empty, their
multiset union is exactly the input node list (no omission, no
duplication), they are pairwise disjoint, and a node with no similarity
to any other node surfaces as a singleton cluster. -/
theorem C2_partition (nodes : List α) (w : α → α → ℚ) (r cap : Nat) (hnd : nodes.Nodup) :
    (∀ c ∈ (perform_mcl nodes w r cap).1, c ≠ []) ∧
    ((perform_mcl nodes w r cap).1).flatten.Perm nodes ∧
    List.Pairwise List.Disjoint (perform_mcl nodes w r cap).1 ∧
    (∀ x ∈ nodes, 0 < r → (∀ y ∈ nodes, y ≠ x → w x y = 0 ∧ w y x = 0) →
      [x] ∈ (perform_mcl nodes w r cap).1) := by
  refine ⟨components_ne_nil _ nodes, components_flatten_perm _ nodes,
    components_disjoint _ hnd, ?_⟩
  intro x hx hr hiso
  have hzero : ∀ y ∈ nodes, y ≠ x →
      (mclLoop nodes r cap (initMatrix w)).1 x y = 0 ∧
      (mclLoop nodes r cap (initMatrix w)).1 y x = 0 := by
    refine mclLoop_zero_entries nodes hr cap (initMatrix w) ?_
    intro y hy hyx
    constructor
    · show (if x = y then (1 : ℚ) else w x y) = 0
      rw [if_neg (fun he => hyx he.symm), (hiso y hy hyx).1]
    · show (if y = x then (1 : ℚ) else w y x) = 0
      rw [if_neg hyx, (hiso y hy hyx).2]
  refine isolated_mem_components _ hnd hx ?_
  intro y hy hyx
  have hz := hzero y hy hyx
  constructor
  · simp [adjSym, matrixAdj, hz.1, hz.2]
  · simp [adjSym, matrixAdj, hz.1, hz.2]

/-- Witness for C2: on nodes a, b with all-zero similarity, node a is a
singleton cluster. -/
theorem C2_partition_witness :
    [("a" : String)] ∈ (perform_mcl ["a", "b"] (fun _ _ => (0 : ℚ)) 1 0).1 :=
  (C2_partition ["a", "b"] (fun _ _ => (0 : ℚ)) 1 0 (by decide)).2.2.2 "a"
    (by decide) (by decide) (by decide)

/-- C1: every (cluster, centroid) pair produced by extraction has a
centroid that is a member of the cluster, whose summed intra-cluster
distance is minimal among all members, with ties broken by lowest
identifier; a singleton cluster has its unique member as centroid. -/
theorem C1_centroid_minimal [LinearOrder α] (nodes : List α) (w d : α → α → ℚ)
    (r cap : Nat) (pr : List α × Option α)
    (hpr : pr ∈ extract_cluster d (perform_mcl nodes w r cap).1) :
    ∃ m, pr.2 = some m ∧ m ∈ pr.1 ∧
      (∀ x ∈ pr.1, sumDist d pr.1 m ≤ sumDist d pr.1 x) ∧
      (∀ x ∈ pr.1, sumDist d pr.1 x = sumDist d pr.1 m → m ≤ x) ∧
      (∀ s, pr.1 = [s] → m = s) := by
  rcases List.mem_map.1 hpr with ⟨c, hc, rfl⟩
  have hne : c ≠ [] := components_ne_nil _ nodes c hc
  obtain ⟨m, hm, hmem, hmin, htie⟩ := centroid_mem_and_min d hne
  refine ⟨m, hm, hmem, hmin, htie, ?_⟩
  intro s hs
  subst hs
  rw [centroid_singleton] at hm
  exact (Option.some.inj hm).symm

/-- Witness for C1 at a one-node pipeline run. -/
theorem C1_centroid_minimal_witness :
    ∃ m : String, (some "a" : Option String) = some m ∧ m ∈ ["a"] ∧
      (∀ x ∈ ["a"], sumDist (fun _ _ => (0 : ℚ)) ["a"] m ≤ sumDist (fun _ _ => (0 : ℚ)) ["a"] x) ∧
      (∀ x ∈ ["a"], sumDist (fun _ _ => (0 : ℚ)) ["a"] x = sumDist (fun _ _ => (0 : ℚ)) ["a"] m →
        m ≤ x) ∧
      (∀ s, ["a"] = [s] → m = s) :=
  C1_centroid_minimal ["a"] (fun _ _ => 0) (fun _ _ => 0) 1 0 (["a"], some "a") (by decide)

/-- C4: the pipeline result does not depend on the enumeration order of
the input: two runs on permuted node lists produce the same set of
clusters (as sets of identifiers) and the same centroid for each
matching cluster. Combined with the purity of every stage (a function of
its input), two runs on identical input are identical. -/
theorem C4_order_invariance [LinearOrder α] (ns₁ ns₂ : List α) (w d : α → α → ℚ)
    (r cap : Nat) (hperm : ns₁.Perm ns₂) (hnd : ns₁.Nodup) :
    (∀ c₁ ∈ (perform_mcl ns₁ w r cap).1, ∃ c₂ ∈ (perform_mcl ns₂ w r cap).1,
      c₁.toFinset = c₂.toFinset ∧ centroid d c₁ = centroid d c₂) ∧
    (∀ c₂ ∈ (perform_mcl ns₂ w r cap).1, ∃ c₁ ∈ (perform_mcl ns₁ w r cap).1,
      c₂.toFinset = c₁.toFinset ∧ centroid d c₂ = centroid d c₁) := by
  have hnd₂ : ns₂.Nodup := hperm.nodup_iff.1 hnd
  have key : ∀ (msA msB : List α), msA.Perm msB → msA.Nodup → msB.Nodup →
      ∀ c₁ ∈ (perform_mcl msA w r cap).1, ∃ c₂ ∈ (perform_mcl msB w r cap).1,
        c₁.toFinset = c₂.toFinset ∧ centroid d c₁ = centroid d c₂ := by
    intro msA msB hp hA hB c₁ hc₁
    have hMM : (mclLoop msA r cap (initMatrix w)).1 = (mclLoop msB r cap (initMatrix w)).1 := by
      rw [mclLoop_perm hp]
    have hCB : (perform_mcl msB w r cap).1
        = components (matrixAdj (mclLoop msA r cap (initMatrix w)).1) msB := by
      show components (matrixAdj (mclLoop msB r cap (initMatrix w)).1) msB = _
      rw [hMM]
    have hc₁' : c₁ ∈ components (matrixAdj (mclLoop msA r cap (initMatrix w)).1) msA := hc₁
    obtain ⟨c₂, hc₂, hiff⟩ := components_match _ hp hc₁'
    have hc₂' : c₂ ∈ (perform_mcl msB w r cap).1 := by rw [hCB]; exact hc₂
    refine ⟨c₂, hc₂', ?_, ?_⟩
    · ext a
      simp only [List.mem_toFinset]
      exact hiff a
    · have hpc : c₁.Perm c₂ := by
        rw [List.perm_ext_iff_of_nodup (components_each_nodup _ hA c₁ hc₁')
          (components_each_nodup _ hB c₂ hc₂)]
        exact hiff
      exact centroid_perm d hpc
  exact ⟨key ns₁ ns₂ hperm hnd hnd₂, key ns₂ ns₁ hperm.symm hnd₂ hnd⟩

/-- Witness for C4: two-node input in both orders. -/
theorem C4_order_invariance_witness :
    ∃ c₂ ∈ (perform_mcl ["b", "a"] (fun _ _ => (0 : ℚ)) 1 0).1,
      (["a"] : List String).toFinset = c₂.toFinset ∧
      centroid (fun _ _ => (0 : ℚ)) ["a"] = centroid (fun _ _ => (0 : ℚ)) c₂ :=
  (C4_order_invariance ["a", "b"] ["b", "a"] (fun _ _ => 0) (fun _ _ => 0) 1 0
    (by decide) (by decide)).1 ["a"] (by decide)

end Clustering

/-- The verbosity effects emitted before any check (line 112-114). -/
def verboseTrace (d : PyArgs) : List Effect :=
  if d.verbose = true then [Effect.setLevelInfo] else []

lemma parse_version_eq (env : Env) {d : PyArgs} (hv : d.version = true) :
    parse_arguments env d = (env, [Effect.printVersion], Except.error 0) := by
  simp [parse_arguments, hv]

lemma parse_input_error_eq (env : Env) {d : PyArgs} (hv : d.version = false)
    (hf : env.isFile d.inputSequences = false) :
    parse_arguments env d =
      (env, verboseTrace d ++ [Effect.logError "Couldnt find input sequences. Check your file"],
       Except.error 1) := by
  simp [parse_arguments, verboseTrace, hv, hf]

lemma parse_goi_error_eq (env : Env) {d : PyArgs} (hv : d.version = false)
    (hf : env.isFile d.inputSequences = true) (hg : goiMissing env d = true) :
    parse_arguments env d =
      (env, verboseTrace d ++ [Effect.logError "Couldnt find genome of interest. Check your file"],
       Except.error 1) := by
  simp [parse_arguments, verboseTrace, hv, hf, hg]

lemma parse_kmer_error_eq (env : Env) {d : PyArgs} (hv : d.version = false)
    (hf : env.isFile d.inputSequences = true) (hg : goiMissing env d = false)
    (hk : pyInt d.kmer = none) :
    parse_arguments env d =
      ((create_outdir env ((if d.output == "pwd" then env.cwd else d.output) ++ "/vegeta")).1,
       verboseTrace d
         ++ (create_outdir env ((if d.output == "pwd" then env.cwd else d.output) ++ "/vegeta")).2
         ++ [Effect.logError "Invalid parameter for k-mer size. Please input a number."],
       Except.error 2) := by
  simp [parse_arguments, verboseTrace, hv, hf, hg, hk]

lemma parse_ok_eq (env : Env) {d : PyArgs} {k : Int} (hv : d.version = false)
    (hf : env.isFile d.inputSequences = true) (hg : goiMissing env d = false)
    (hk : pyInt d.kmer = some k) :
    parse_arguments env d =
      ((create_outdir env ((if d.output == "pwd" then env.cwd else d.output) ++ "/vegeta")).1,
       verboseTrace d
         ++ (create_outdir env ((if d.output == "pwd" then env.cwd else d.output) ++ "/vegeta")).2,
       Except.ok
         { inputSequences := d.inputSequences
           goi := d.genomeOfInterest
           outdir := (if d.output == "pwd" then env.cwd else d.output) ++ "/vegeta"
           alnOnly := d.alignmentOnly
           clusterOnly := d.clusterOnly
           k := k }) := by
  simp [parse_arguments, verboseTrace, hv, hf, hg, hk]

lemma parse_ok_dest (env : Env) (d : PyArgs) (p : Parsed)
    (h : (parse_arguments env d).2.2 = Except.ok p) :
    d.version = false ∧ env.isFile d.inputSequences = true ∧ goiMissing env d = false ∧
    pyInt d.kmer = some p.k ∧
    p = { inputSequences := d.inputSequences
          goi := d.genomeOfInterest
          outdir := (if d.output == "pwd" then env.cwd else d.output) ++ "/vegeta"
          alnOnly := d.alignmentOnly
          clusterOnly := d.clusterOnly
          k := p.k } := by
  by_cases hv : d.version = true
  · rw [parse_version_eq env hv] at h
    exact absurd h (by simp)
  · rw [Bool.not_eq_true] at hv
    by_cases hf : env.isFile d.inputSequences = false
    · rw [parse_input_error_eq env hv hf] at h
      exact absurd h (by simp)
    · rw [Bool.not_eq_false] at hf
      by_cases hg : goiMissing env d = true
      · rw [parse_goi_error_eq env hv hf hg] at h
        exact absurd h (by simp)
      · rw [Bool.not_eq_true] at hg
        cases hk : pyInt d.kmer with
        | none =>
          rw [parse_kmer_error_eq env hv hf hg hk] at h
          exact absurd h (by simp)
        | some k =>
          rw [parse_ok_eq env hv hf hg hk] at h
          simp only [Except.ok.injEq] at h
          subst h
          exact ⟨hv, hf, hg, rfl, rfl⟩

lemma main_run_error (env : Env) (d : PyArgs) (c : Nat)
    (h : (parse_arguments env d).2.2 = Except.error c) :
    main_run env d = ((parse_arguments env d).1, (parse_arguments env d).2.1, some c) := by
  unfold main_run
  rcases hP : parse_arguments env d with ⟨env', tr, r⟩
  rw [hP] at h
  dsimp only at h
  subst h
  rfl

lemma main_run_ok (env : Env) (d : PyArgs) (p : Parsed)
    (h : (parse_arguments env d).2.2 = Except.ok p) :
    main_run env d = ((parse_arguments env d).1,
      (parse_arguments env d).2.1
        ++ (if p.alnOnly = true then
              [Effect.logInfo "Skipping clustering and directly calculate the alignment."]
            else [])
        ++ (if p.clusterOnly = true then
              [Effect.logInfo "Only clustering is performed. The alignment calculation will be skipped."]
            else [])
        ++ (if p.alnOnly = false then
              [Effect.clustererInit p.inputSequences p.k,
               Effect.determineProfile,
               Effect.logInfo "Calculating all pairwise kmer distances. This may take a while.",
               Effect.pairwiseDistances,
               Effect.createMatrix,
               Effect.logInfo "Now performing mcl to cluster the sequences.",
               Effect.performMCL p.outdir,
               Effect.extractCluster p.outdir]
            else []),
      none) := by
  unfold main_run
  rcases hP : parse_arguments env d with ⟨env', tr, r⟩
  rw [hP] at h
  dsimp only at h
  subst h
  rfl

lemma verboseTrace_no_stage (d : PyArgs) :
    ∀ e ∈ verboseTrace d, e.isPipelineStage = false := by
  unfold verboseTrace
  by_cases h : d.verbose = true
  · rw [if_pos h]
    intro e he
    simp only [List.mem_singleton] at he
    subst he
    rfl
  · rw [if_neg h]
    intro e he
    simp at he

lemma verboseTrace_no_artifact (d : PyArgs) :
    ∀ e ∈ verboseTrace d, e.isArtifact = false := by
  unfold verboseTrace
  by_cases h : d.verbose = true
  · rw [if_pos h]
    intro e he
    simp only [List.mem_singleton] at he
    subst he
    rfl
  · rw [if_neg h]
    intro e he
    simp at he

lemma create_outdir_trace (env : Env) (q : String) :
    (create_outdir env q).2 = (if env.dirExists q = true
      then [Effect.logWarning "The output directory exists. Files will be overwritten."]
      else [Effect.mkdir q, Effect.logInfo ("Creating output directory: " ++ q)]) := by
  unfold create_outdir
  by_cases h : env.dirExists q = true
  · rw [if_pos h, if_pos h]
  · rw [if_neg h, if_neg h]

lemma create_outdir_dirExists (env : Env) (q : String) :
    (create_outdir env q).1.dirExists q = true := by
  unfold create_outdir
  by_cases h : env.dirExists q = true
  · rw [if_pos h]
    exact h
  · rw [if_neg h]
    show ((q == q) || env.dirExists q) = true
    simp

lemma create_outdir_no_stage (env : Env) (q : String) :
    ∀ e ∈ (create_outdir env q).2, e.isPipelineStage = false := by
  rw [create_outdir_trace]
  by_cases h : env.dirExists q = true
  · rw [if_pos h]
    intro e he
    simp only [List.mem_singleton] at he
    subst he
    rfl
  · rw [if_neg h]
    intro e he
    rcases List.mem_cons.1 he with rfl | he'
    · rfl
    · simp only [List.mem_singleton] at he'
      subst he'
      rfl

lemma parse_no_stage (env : Env) (d : PyArgs) :
    ∀ e ∈ (parse_arguments env d).2.1, e.isPipelineStage = false := by
  by_cases hv : d.version = true
  · rw [parse_version_eq env hv]
    intro e he
    simp at he
    subst he
    rfl
  · rw [Bool.not_eq_true] at hv
    by_cases hf : env.isFile d.inputSequences = false
    · rw [parse_input_error_eq env hv hf]
      intro e he
      simp only [List.mem_append, List.mem_singleton] at he
      rcases he with he | he
      · exact verboseTrace_no_stage d e he
      · subst he
        rfl
    · rw [Bool.not_eq_false] at hf
      by_cases hg : goiMissing env d = true
      · rw [parse_goi_error_eq env hv hf hg]
        intro e he
        simp only [List.mem_append, List.mem_singleton] at he
        rcases he with he | he
        · exact verboseTrace_no_stage d e he
        · subst he
          rfl
      · rw [Bool.not_eq_true] at hg
        cases hk : pyInt d.kmer with
        | none =>
          rw [parse_kmer_error_eq env hv hf hg hk]
          intro e he
          simp only [List.mem_append, List.mem_singleton] at he
          rcases he with (he | he) | he
          · exact verboseTrace_no_stage d e he
          · exact create_outdir_no_stage env _ e he
          · subst he
            rfl
        | some k =>
          rw [parse_ok_eq env hv hf hg hk]
          intro e he
          simp only [List.mem_append] at he
          rcases he with he | he
          · exact verboseTrace_no_stage d e he
          · exact create_outdir_no_stage env _ e he

/-- A concrete environment where every path is a file and no directory
exists yet. -/
def envAllFiles : Env :=
  { isFile := fun _ => true, dirExists := fun _ => false, cwd := "/work" }

/-- A concrete environment where no path is a file. -/
def envNoFiles : Env :=
  { isFile := fun _ => false, dirExists := fun _ => false, cwd := "/work" }

/-- A concrete well-formed argument dictionary. -/
def argsBase : PyArgs :=
  { version := false, verbose := false, inputSequences := "in.fasta",
    genomeOfInterest := none, output := "pwd", kmer := "8",
    alignmentOnly := false, clusterOnly := false }

/-- The same arguments with a non-numeric kmer. -/
def argsBadKmer : PyArgs := { argsBase with kmer := "abc" }

/-- The same arguments with kmer "0". -/
def argsZeroKmer : PyArgs := { argsBase with kmer := "0" }

/-- The same arguments with a genome of interest supplied. -/
def argsGoi : PyArgs := { argsBase with genomeOfInterest := some "goi.fasta" }

/-- The tuple `parse_arguments` returns for `argsBase` in `envAllFiles`. -/
def parsedBase : Parsed :=
  { inputSequences := "in.fasta", goi := none, outdir := "/work/vegeta",
    alnOnly := false, clusterOnly := false, k := 8 }

/-- The tuple `parse_arguments` returns for `argsZeroKmer` in `envAllFiles`. -/
def parsedZero : Parsed :=
  { inputSequences := "in.fasta", goi := none, outdir := "/work/vegeta",
    alnOnly := false, clusterOnly := false, k := 0 }

/-- C6 counterexample: with an existing input-sequence file and the
non-numeric kmer argument "abc", the program does exit (code 2) before
any pipeline stage, but only after creating the output directory — an
artifact of the aborted run, contradicting "no partial state or
artifacts". -/
theorem C6_counterexample :
    (main_run envAllFiles argsBadKmer).2.2 = some 2 ∧
    Effect.mkdir "/work/vegeta" ∈ (main_run envAllFiles argsBadKmer).2.1 ∧
    (main_run envAllFiles argsBadKmer).1.dirExists "/work/vegeta" = true :=
  ⟨by decide, by decide, by decide⟩

/-- C6 (amended): ingestion and configuration errors are fatal and exit
with an error log before any pipeline stage runs; for the missing
input-file and missing genome-of-interest errors no artifact is created
and the environment is untouched, while the non-numeric kmer error exits
only after the output directory has been handled. -/
theorem C6_fatal_errors_amended (env : Env) (d : PyArgs) (hv : d.version = false)
    (herr : env.isFile d.inputSequences = false ∨ goiMissing env d = true ∨
      pyInt d.kmer = none) :
    (∃ c, (main_run env d).2.2 = some c) ∧
    (∃ msg, Effect.logError msg ∈ (main_run env d).2.1) ∧
    (∀ e ∈ (main_run env d).2.1, e.isPipelineStage = false) ∧
    ((env.isFile d.inputSequences = false ∨ goiMissing env d = true) →
      (∀ e ∈ (main_run env d).2.1, e.isArtifact = false) ∧ (main_run env d).1 = env) := by
  by_cases hf : env.isFile d.inputSequences = false
  · have hp := parse_input_error_eq env hv hf
    have hm := main_run_error env d 1 (by rw [hp])
    rw [hm, hp]
    refine ⟨⟨1, rfl⟩, ?_, ?_, ?_⟩
    · exact ⟨"Couldnt find input sequences. Check your file",
        List.mem_append_right _ (List.mem_singleton.2 rfl)⟩
    · intro e he
      simp only [List.mem_append, List.mem_singleton] at he
      rcases he with he | he
      · exact verboseTrace_no_stage d e he
      · subst he
        rfl
    · intro _
      refine ⟨?_, rfl⟩
      intro e he
      simp only [List.mem_append, List.mem_singleton] at he
      rcases he with he | he
      · exact verboseTrace_no_artifact d e he
      · subst he
        rfl
  · rw [Bool.not_eq_false] at hf
    by_cases hg : goiMissing env d = true
    · have hp := parse_goi_error_eq env hv hf hg
      have hm := main_run_error env d 1 (by rw [hp])
      rw [hm, hp]
      refine ⟨⟨1, rfl⟩, ?_, ?_, ?_⟩
      · exact ⟨"Couldnt find genome of interest. Check your file",
          List.mem_append_right _ (List.mem_singleton.2 rfl)⟩
      · intro e he
        simp only [List.mem_append, List.mem_singleton] at he
        rcases he with he | he
        · exact verboseTrace_no_stage d e he
        · subst he
          rfl
      · intro _
        refine ⟨?_, rfl⟩
        intro e he
        simp only [List.mem_append, List.mem_singleton] at he
        rcases he with he | he
        · exact verboseTrace_no_artifact d e he
        · subst he
          rfl
    · rw [Bool.not_eq_true] at hg
      have hk : pyInt d.kmer = none := by
        rcases herr with h1 | h1 | h1
        · rw [hf] at h1
          exact absurd h1 (by simp)
        · rw [hg] at h1
          exact absurd h1 (by simp)
        · exact h1
      have hp := parse_kmer_error_eq env hv hf hg hk
      have hm := main_run_error env d 2 (by rw [hp])
      rw [hm, hp]
      refine ⟨⟨2, rfl⟩, ?_, ?_, ?_⟩
      · exact ⟨"Invalid parameter for k-mer size. Please input a number.",
          List.mem_append_right _ (List.mem_singleton.2 rfl)⟩
      · intro e he
        simp only [List.mem_append, List.mem_singleton] at he
        rcases he with (he | he) | he
        · exact verboseTrace_no_stage d e he
        · exact create_outdir_no_stage env _ e he
        · subst he
          rfl
      · intro hcontra
        rcases hcontra with h1 | h1
        · rw [hf] at h1
          exact absurd h1 (by simp)
        · rw [hg] at h1
          exact absurd h1 (by simp)

/-- Witness for the amended C6 at a concrete missing-input run. -/
theorem C6_fatal_errors_amended_witness :
    (∃ c, (main_run envNoFiles argsBase).2.2 = some c) ∧
    (∃ msg, Effect.logError msg ∈ (main_run envNoFiles argsBase).2.1) ∧
    (∀ e ∈ (main_run envNoFiles argsBase).2.1, e.isPipelineStage = false) ∧
    ((∀ e ∈ (main_run envNoFiles argsBase).2.1, e.isArtifact = false) ∧
      (main_run envNoFiles argsBase).1 = envNoFiles) := by
  have h := C6_fatal_errors_amended envNoFiles argsBase rfl (Or.inl rfl)
  exact ⟨h.1, h.2.1, h.2.2.1, h.2.2.2 (Or.inl rfl)⟩

/-- C7 counterexample: the kmer argument "0" is accepted as numeric and
`parse_arguments` returns k = 0, which is not a positive integer. -/
theorem C7_counterexample :
    (parse_arguments envAllFiles argsZeroKmer).2.2 = Except.ok parsedZero ∧
    ¬(0 < parsedZero.k) :=
  ⟨rfl, by decide⟩

/-- C7 (amended): whenever `parse_arguments` returns, the k it passes to
the pipeline is the integer value of the `--kmer` string — it is
validated to be numeric (an integer), but may be zero or negative;
positivity is not enforced. -/
theorem C7_kmer_numeric (env : Env) (d : PyArgs) (p : Parsed)
    (h : (parse_arguments env d).2.2 = Except.ok p) :
    pyInt d.kmer = some p.k :=
  (parse_ok_dest env d p h).2.2.2.1

/-- Witness for the amended C7. -/
theorem C7_kmer_numeric_witness : pyInt "8" = some 8 :=
  C7_kmer_numeric envAllFiles argsBase parsedBase rfl

/-- C8 counterexample: with an existing genome of interest "goi.fasta",
the clustering stage is constructed from the input-sequence path alone:
no Clusterer construction in the whole run trace mentions the genome of
interest, so the clustering input does not include it. -/
theorem C8_counterexample :
    Effect.clustererInit "in.fasta" 8 ∈ (main_run envAllFiles argsGoi).2.1 ∧
    (main_run envAllFiles argsGoi).2.1.all
      (fun e => !(Effect.initUses "goi.fasta" e)) = true :=
  ⟨by decide, by decide⟩

/-- C8 (amended): a provided genome-of-interest path is validated to be
an existing file, but its record does not participate in clustering:
the whole run is unchanged if the genome of interest is removed, and
every Clusterer construction receives exactly the input-sequence path
and k. -/
theorem C8_goi_validated_not_used (env : Env) (d : PyArgs) (g : String)
    (hgoi : d.genomeOfInterest = some g) (hfile : env.isFile g = true) :
    main_run env { d with genomeOfInterest := none } = main_run env d ∧
    (∀ p : Parsed, (parse_arguments env d).2.2 = Except.ok p →
      ∀ i k, Effect.clustererInit i k ∈ (main_run env d).2.1 →
        i = p.inputSequences ∧ k = p.k) := by
  have hgm : goiMissing env d = false := by
    simp [goiMissing, hgoi, hfile]
  have hgm' : goiMissing env { d with genomeOfInterest := none } = false := by
    simp [goiMissing]
  constructor
  · by_cases hv : d.version = true
    · rw [main_run_error env { d with genomeOfInterest := none } 0
          (by rw [@parse_version_eq env { d with genomeOfInterest := none } hv]),
        main_run_error env d 0 (by rw [parse_version_eq env hv]),
        @parse_version_eq env { d with genomeOfInterest := none } hv,
        parse_version_eq env hv]
    · rw [Bool.not_eq_true] at hv
      by_cases hf : env.isFile d.inputSequences = false
      · rw [main_run_error env { d with genomeOfInterest := none } 1
            (by rw [@parse_input_error_eq env { d with genomeOfInterest := none } hv hf]),
          main_run_error env d 1 (by rw [parse_input_error_eq env hv hf]),
          @parse_input_error_eq env { d with genomeOfInterest := none } hv hf,
          parse_input_error_eq env hv hf]
        rfl
      · rw [Bool.not_eq_false] at hf
        cases hk : pyInt d.kmer with
        | none =>
          rw [main_run_error env { d with genomeOfInterest := none } 2
              (by rw [@parse_kmer_error_eq env { d with genomeOfInterest := none } hv hf hgm' hk]),
            main_run_error env d 2 (by rw [parse_kmer_error_eq env hv hf hgm hk]),
            @parse_kmer_error_eq env { d with genomeOfInterest := none } hv hf hgm' hk,
            parse_kmer_error_eq env hv hf hgm hk]
          rfl
        | some k =>
          rw [main_run_ok env { d with genomeOfInterest := none } _
              (by rw [@parse_ok_eq env { d with genomeOfInterest := none } k hv hf hgm' hk]),
            main_run_ok env d _ (by rw [parse_ok_eq env hv hf hgm hk]),
            @parse_ok_eq env { d with genomeOfInterest := none } k hv hf hgm' hk,
            parse_ok_eq env hv hf hgm hk]
          rfl
  · intro p hp i k hik
    rw [main_run_ok env d p hp] at hik
    dsimp only at hik
    rcases List.mem_append.1 hik with hik1 | hik2
    · rcases List.mem_append.1 hik1 with hik3 | hik4
      · rcases List.mem_append.1 hik3 with hik5 | hik6
        · have hns := parse_no_stage env d _ hik5
          simp [Effect.isPipelineStage] at hns
        · by_cases ha : p.alnOnly = true
          · rw [if_pos ha] at hik6
            simp at hik6
          · rw [if_neg ha] at hik6
            simp at hik6
      · by_cases hco : p.clusterOnly = true
        · rw [if_pos hco] at hik4
          simp at hik4
        · rw [if_neg hco] at hik4
          simp at hik4
    · by_cases ha : p.alnOnly = false
      · rw [if_pos ha] at hik2
        simp only [List.mem_cons, List.mem_singleton] at hik2
        rcases hik2 with he | he | he | he | he | he | he | he
        · exact ⟨(Effect.clustererInit.inj he).1, (Effect.clustererInit.inj he).2⟩
        all_goals simp at he
      · rw [if_neg ha] at hik2
        simp at hik2

/-- The tuple `parse_arguments` returns for `argsGoi` in `envAllFiles`. -/
def parsedGoi : Parsed :=
  { inputSequences := "in.fasta", goi := some "goi.fasta", outdir := "/work/vegeta",
    alnOnly := false, clusterOnly := false, k := 8 }

/-- Witness for the amended C8 at a concrete run with a genome of
interest. -/
theorem C8_goi_validated_not_used_witness :
    main_run envAllFiles { argsGoi with genomeOfInterest := none } =
      main_run envAllFiles argsGoi ∧
    ("in.fasta" = parsedGoi.inputSequences ∧ (8 : Int) = parsedGoi.k) := by
  have h := C8_goi_validated_not_used envAllFiles argsGoi "goi.fasta" rfl rfl
  exact ⟨h.1, h.2 parsedGoi rfl "in.fasta" 8 (by decide)⟩

/-- C9: the output directory is created if absent (and exists in the
resulting environment either way), an already-existing directory only
produces the overwrite warning, and the success or failure of argument
parsing is entirely independent of whether the output directory already
exists. -/
theorem C9_outdir_tolerant (env env₂ : Env) (d : PyArgs) (q : String)
    (hfi : env.isFile = env₂.isFile) (hcw : env.cwd = env₂.cwd) :
    (create_outdir env q).2 = (if env.dirExists q = true
      then [Effect.logWarning "The output directory exists. Files will be overwritten."]
      else [Effect.mkdir q, Effect.logInfo ("Creating output directory: " ++ q)]) ∧
    (create_outdir env q).1.dirExists q = true ∧
    (parse_arguments env d).2.2 = (parse_arguments env₂ d).2.2 := by
  refine ⟨create_outdir_trace env q, create_outdir_dirExists env q, ?_⟩
  by_cases hv : d.version = true
  · rw [parse_version_eq env hv, parse_version_eq env₂ hv]
  · rw [Bool.not_eq_true] at hv
    have hgm : goiMissing env d = goiMissing env₂ d := by
      unfold goiMissing
      cases d.genomeOfInterest with
      | none => rfl
      | some g => rw [hfi]
    by_cases hf : env.isFile d.inputSequences = false
    · have hf2 : env₂.isFile d.inputSequences = false := by rw [← hfi]; exact hf
      rw [parse_input_error_eq env hv hf, parse_input_error_eq env₂ hv hf2]
    · rw [Bool.not_eq_false] at hf
      have hf2 : env₂.isFile d.inputSequences = true := by rw [← hfi]; exact hf
      by_cases hg : goiMissing env d = true
      · have hg2 : goiMissing env₂ d = true := by rw [← hgm]; exact hg
        rw [parse_goi_error_eq env hv hf hg, parse_goi_error_eq env₂ hv hf2 hg2]
      · rw [Bool.not_eq_true] at hg
        have hg2 : goiMissing env₂ d = false := by rw [← hgm]; exact hg
        cases hk : pyInt d.kmer with
        | none =>
          rw [parse_kmer_error_eq env hv hf hg hk, parse_kmer_error_eq env₂ hv hf2 hg2 hk]
        | some k =>
          rw [parse_ok_eq env hv hf hg hk, parse_ok_eq env₂ hv hf2 hg2 hk]
          dsimp only
          rw [hcw]

/-- Witness for C9: the same run with and without a pre-existing output
directory parses to the same result. -/
theorem C9_outdir_tolerant_witness :
    (create_outdir envAllFiles "/work/vegeta").2 =
      (if envAllFiles.dirExists "/work/vegeta" = true
        then [Effect.logWarning "The output directory exists. Files will be overwritten."]
        else [Effect.mkdir "/work/vegeta",
          Effect.logInfo ("Creating output directory: " ++ "/work/vegeta")]) ∧
    (create_outdir envAllFiles "/work/vegeta").1.dirExists "/work/vegeta" = true ∧
    (parse_arguments envAllFiles argsBase).2.2 =
      (parse_arguments { envAllFiles with dirExists := fun _ => true } argsBase).2.2 :=
  C9_outdir_tolerant envAllFiles { envAllFiles with dirExists := fun _ => true }
    argsBase "/work/vegeta" rfl rfl

/-- C10: whenever `parse_arguments` returns, the output directory it
hands on is the user-supplied output path (the working directory when
the default "pwd" is used) with the "/vegeta" subdirectory appended, and
that is exactly the path the clustering (`perform_mcl`) and extraction
(`extract_cluster`) stages receive. -/
theorem C10_vegeta_subdir (env : Env) (d : PyArgs) (p : Parsed)
    (h : (parse_arguments env d).2.2 = Except.ok p) :
    p.outdir = (if d.output == "pwd" then env.cwd else d.output) ++ "/vegeta" ∧
    (∀ o, Effect.performMCL o ∈ (main_run env d).2.1 → o = p.outdir) ∧
    (∀ o, Effect.extractCluster o ∈ (main_run env d).2.1 → o = p.outdir) ∧
    (p.alnOnly = false →
      Effect.performMCL p.outdir ∈ (main_run env d).2.1 ∧
      Effect.extractCluster p.outdir ∈ (main_run env d).2.1) := by
  obtain ⟨hv, hf, hg, hk, hpeq⟩ := parse_ok_dest env d p h
  refine ⟨by rw [hpeq], ?_, ?_, ?_⟩
  · intro o ho
    rw [main_run_ok env d p h] at ho
    dsimp only at ho
    rcases List.mem_append.1 ho with ho1 | ho2
    · rcases List.mem_append.1 ho1 with ho3 | ho4
      · rcases List.mem_append.1 ho3 with ho5 | ho6
        · have hns := parse_no_stage env d _ ho5
          simp [Effect.isPipelineStage] at hns
        · by_cases ha : p.alnOnly = true
          · rw [if_pos ha] at ho6
            simp at ho6
          · rw [if_neg ha] at ho6
            simp at ho6
      · by_cases hco : p.clusterOnly = true
        · rw [if_pos hco] at ho4
          simp at ho4
        · rw [if_neg hco] at ho4
          simp at ho4
    · by_cases ha : p.alnOnly = false
      · rw [if_pos ha] at ho2
        simp only [List.mem_cons, List.mem_singleton] at ho2
        rcases ho2 with he | he | he | he | he | he | he | he
        all_goals simp at he
        all_goals exact he
      · rw [if_neg ha] at ho2
        simp at ho2
  · intro o ho
    rw [main_run_ok env d p h] at ho
    dsimp only at ho
    rcases List.mem_append.1 ho with ho1 | ho2
    · rcases List.mem_append.1 ho1 with ho3 | ho4
      · rcases List.mem_append.1 ho3 with ho5 | ho6
        · have hns := parse_no_stage env d _ ho5
          simp [Effect.isPipelineStage] at hns
        · by_cases ha : p.alnOnly = true
          · rw [if_pos ha] at ho6
            simp at ho6
          · rw [if_neg ha] at ho6
            simp at ho6
      · by_cases hco : p.clusterOnly = true
        · rw [if_pos hco] at ho4
          simp at ho4
        · rw [if_neg hco] at ho4
          simp at ho4
    · by_cases ha : p.alnOnly = false
      · rw [if_pos ha] at ho2
        simp only [List.mem_cons, List.mem_singleton] at ho2
        rcases ho2 with he | he | he | he | he | he | he | he
        all_goals simp at he
        all_goals exact he
      · rw [if_neg ha] at ho2
        simp at ho2
  · intro ha
    rw [main_run_ok env d p h]
    dsimp only
    constructor
    · refine List.mem_append_right _ ?_
      rw [if_pos ha]
      simp
    · refine List.mem_append_right _ ?_
      rw [if_pos ha]
      simp

/-- Witness for C10 at a concrete run with the default output path. -/
theorem C10_vegeta_subdir_witness :
    parsedBase.outdir =
      (if argsBase.output == "pwd" then envAllFiles.cwd else argsBase.output) ++ "/vegeta" ∧
    Effect.performMCL parsedBase.outdir ∈ (main_run envAllFiles argsBase).2.1 ∧
    Effect.extractCluster parsedBase.outdir ∈ (main_run envAllFiles argsBase).2.1 := by
  have h := C10_vegeta_subdir envAllFiles argsBase parsedBase rfl
  exact ⟨h.1, (h.2.2.2 rfl).1, (h.2.2.2 rfl).2⟩

end Vegeta
